import Mathlib

/-!
Verification of the recurve-ai backend core logic against its specification.

The Python backend is shallowly embedded: each relevant Python function is
translated into an executable Lean definition over explicit state, and the
specification's sentences are settled as theorems about those definitions.

Embedding conventions:
* Python `str` becomes `String`; `str.lower()` is ASCII lowercasing, the only
  case occurring in the vocabulary handled by the code.
* Python substring tests (`needle in haystack`) become `strContains`.
* Python sets become deduplicated lists (`List.dedup`), `sorted(...)` becomes
  `List.insertionSort` under the code-point order (Python's string order).
* The float threshold `0.6` and the division `d / n` are modelled over `ℚ`
  with the exact value `3/5`.
* Neo4j state becomes an explicit `Db` record of node lists and edge lists;
  each Cypher statement is translated clause by clause.
* External providers (Tavily search, the Pioneer SLM) are parameters: their
  outputs are arguments of the embedded pipeline functions.
-/

namespace Recurve

/-! ### String helpers -/

/-- ASCII lowercase of one character, as Python `str.lower` acts on ASCII. -/
def charLower (c : Char) : Char :=
  if 65 ≤ c.toNat ∧ c.toNat ≤ 90 then Char.ofNat (c.toNat + 32) else c

/-- ASCII lowercase of a string (Python `str.lower`). -/
def strLower (s : String) : String := String.mk (s.data.map charLower)

/-- `hasPre n h = true` iff the char list `n` is a prefix of `h`. -/
def hasPre : List Char → List Char → Bool
  | [], _ => true
  | _ :: _, [] => false
  | a :: as, b :: bs => a == b && hasPre as bs

/-- `hasInf n h = true` iff the char list `n` occurs contiguously in `h`. -/
def hasInf (n : List Char) : List Char → Bool
  | [] => hasPre n []
  | b :: bs => hasPre n (b :: bs) || hasInf n bs

/-- Python's substring test `needle in haystack`. -/
def strContains (haystack needle : String) : Bool :=
  hasInf needle.data haystack.data

theorem hasPre_iff (n h : List Char) : hasPre n h = true ↔ ∃ t, h = n ++ t := by
  induction n generalizing h with
  | nil => simp [hasPre]
  | cons a as ih =>
    cases h with
    | nil => simp [hasPre]
    | cons b bs =>
      simp only [hasPre, Bool.and_eq_true, beq_iff_eq, ih, List.cons_append,
        List.cons.injEq]
      constructor
      · rintro ⟨rfl, t, rfl⟩; exact ⟨t, rfl, rfl⟩
      · rintro ⟨t, rfl, rfl⟩; exact ⟨rfl, t, rfl⟩

theorem hasInf_iff (n h : List Char) : hasInf n h = true ↔ ∃ p t, h = p ++ n ++ t := by
  induction h with
  | nil =>
    simp only [hasInf, hasPre_iff]
    constructor
    · rintro ⟨t, ht⟩; exact ⟨[], t, by simpa using ht⟩
    · rintro ⟨p, t, ht⟩
      have := ht.symm
      rw [List.append_assoc] at this
      rcases List.append_eq_nil.mp this with ⟨rfl, h2⟩
      exact ⟨t, by simpa using ht⟩
  | cons b bs ih =>
    simp only [hasInf, Bool.or_eq_true, hasPre_iff, ih]
    constructor
    · rintro (⟨t, ht⟩ | ⟨p, t, ht⟩)
      · exact ⟨[], t, by simpa using ht⟩
      · exact ⟨b :: p, t, by simp [ht]⟩
    · rintro ⟨p, t, ht⟩
      cases p with
      | nil => exact Or.inl ⟨t, by simpa using ht⟩
      | cons c cs =>
        simp only [List.cons_append, List.cons.injEq] at ht
        exact Or.inr ⟨cs, t, ht.2⟩

theorem strContains_iff (h n : String) :
    strContains h n = true ↔ ∃ p t, h.data = p ++ n.data ++ t :=
  hasInf_iff n.data h.data

theorem strContains_self (s : String) : strContains s s = true := by
  rw [strContains_iff]; exact ⟨[], [], by simp⟩

theorem strContains_append_right {b n : String} (a : String)
    (h : strContains b n = true) : strContains (a ++ b) n = true := by
  rw [strContains_iff] at h ⊢
  rcases h with ⟨p, t, ht⟩
  exact ⟨a.data ++ p, t, by simp [String.data_append, ht]⟩

theorem strContains_append_left {a n : String} (b : String)
    (h : strContains a n = true) : strContains (a ++ b) n = true := by
  rw [strContains_iff] at h ⊢
  rcases h with ⟨p, t, ht⟩
  exact ⟨p, t ++ b.data, by simp [String.data_append, ht]⟩

/-- A string occurring between two others is contained in the concatenation. -/
theorem strContains_append_mid (a m b : String) :
    strContains (a ++ m ++ b) m = true :=
  strContains_append_left b (strContains_append_right a (strContains_self m))

/-- Substring containment is transitive. -/
theorem strContains_trans {h m n : String} (h1 : strContains h m = true)
    (h2 : strContains m n = true) : strContains h n = true := by
  rw [strContains_iff] at h1 h2 ⊢
  rcases h1 with ⟨p, t, hpt⟩
  rcases h2 with ⟨q, s, hqs⟩
  exact ⟨p ++ q, s ++ t, by simp [hpt, hqs]⟩

/-- Python's `sep.join(xs)`. -/
def joinSep (sep : String) : List String → String
  | [] => ""
  | [x] => x
  | x :: y :: xs => x ++ sep ++ joinSep sep (y :: xs)

theorem strContains_joinSep {sep : String} {xs : List String} {x : String}
    (hx : x ∈ xs) : strContains (joinSep sep xs) x = true := by
  induction xs with
  | nil => cases hx
  | cons a as ih =>
    cases as with
    | nil =>
      rcases List.mem_singleton.mp hx with rfl
      exact strContains_self x
    | cons b bs =>
      rcases List.mem_cons.mp hx with rfl | hmem
      · show strContains (x ++ sep ++ joinSep sep (b :: bs)) x = true
        exact strContains_append_left _ (strContains_append_left _ (strContains_self x))
      · show strContains (a ++ sep ++ joinSep sep (b :: bs)) x = true
        exact strContains_append_right _ (ih hmem)

/-- Code-point comparison of char lists: Python's `<=` on strings. -/
def charListLe : List Char → List Char → Bool
  | [], _ => true
  | _ :: _, [] => false
  | a :: as, b :: bs =>
    if a.toNat < b.toNat then true
    else if a.toNat == b.toNat then charListLe as bs
    else false

/-- Python's string order, as a decidable relation for sorting. -/
def strLeRel (a b : String) : Prop := charListLe a.data b.data = true

instance : DecidableRel strLeRel := fun a b => instDecidableEqBool (charListLe a.data b.data) true

/-- Python's `sorted` on a list of strings. -/
def sortedStrs (xs : List String) : List String := List.insertionSort strLeRel xs

theorem mem_sortedStrs {xs : List String} {x : String} :
    x ∈ sortedStrs xs ↔ x ∈ xs :=
  (List.perm_insertionSort strLeRel xs).mem_iff

/-! ### `services/tavily_service.py` -/

/-- The keyword vocabulary `TECH_KEYWORDS` of `tavily_service.py`. -/
def TECH_KEYWORDS : List String :=
  ["python", "go", "golang", "rust", "java", "ruby", "php", "typescript",
   "javascript", "c#", ".net", "elixir", "scala", "kotlin", "swift",
   "postgres", "postgresql", "mysql", "mongodb", "redis", "elasticsearch",
   "dynamodb", "cockroachdb", "oracle", "sql server", "sqlite", "cassandra",
   "aws", "gcp", "google cloud", "azure", "digitalocean", "heroku",
   "fly.io", "render", "vercel", "cloudflare", "on-prem",
   "kubernetes", "docker", "nomad", "terraform", "ansible",
   "react", "vue", "angular", "next.js", "django", "fastapi", "rails",
   "spring", "express", "flask"]

/-- `_extract_tech_mentions`: pull known technology names out of a block of
text, collapsing the postgres and go spelling variants, then `sorted(set(_))`. -/
def extractTechMentions (text : String) : List String :=
  let textLower := strLower text
  let found := TECH_KEYWORDS.filter (fun kw => strContains textLower kw)
  let found1 :=
    if found.contains "postgresql" && found.contains "postgres" then
      found.erase "postgresql"
    else found
  let found2 :=
    if found1.contains "golang" && found1.contains "go" then
      found1.erase "golang"
    else found1
  sortedStrs found2.dedup

/-- The database-technology subset `db_techs` of `fact_check_lead`. -/
def DB_TECHS : List String :=
  ["postgres", "postgresql", "mysql", "mongodb", "redis",
   "dynamodb", "cockroachdb", "oracle", "sql server", "cassandra",
   "elasticsearch", "sqlite"]

/-- Python set intersection `xs & ys`, on list representatives. -/
def listInter (xs ys : List String) : List String :=
  xs.filter (fun x => ys.contains x)

/-- The `mismatch`/`mismatch_details` pair computed by `fact_check_lead`. -/
structure MismatchVerdict where
  mismatch : Bool
  details : Option String
deriving Repr, DecidableEq

/-- The tier-1 details string of `fact_check_lead` (database disagreement). -/
def dbMismatchDetails (cdbs adbs : List String) : String :=
  "Claimed DB: " ++ joinSep ", " cdbs ++ " — but web evidence shows: " ++
    joinSep ", " adbs

/-- One ASCII apostrophe, as a string. -/
def quoteChar : String := String.singleton (Char.ofNat 39)

/-- Python's `repr` of a list of strings, as used by the f-string
`f"... {sorted(claimed_normalized)} ... {actual_tech}"`. -/
def pyStrListRepr (xs : List String) : String :=
  "[" ++ joinSep ", " (xs.map (fun s => quoteChar ++ s ++ quoteChar)) ++ "]"

/-- The tier-2 details string of `fact_check_lead` (no overlap at all). -/
def generalMismatchDetails (claimedSorted actual : List String) : String :=
  "None of the claimed stack " ++ pyStrListRepr claimedSorted ++
    " found in web results. Found instead: " ++ pyStrListRepr actual

/-- The mismatch decision of `fact_check_lead` (lines 91-113): first the
database-specific disjointness test (`claimed_dbs` and `actual_dbs` are the
intersections with `db_techs`), then the general no-overlap test. -/
def mismatchPolicy (claimed_normalized actual_tech : List String) : MismatchVerdict :=
  if listInter claimed_normalized DB_TECHS ≠ [] ∧ listInter actual_tech DB_TECHS ≠ [] ∧
      listInter (listInter claimed_normalized DB_TECHS) (listInter actual_tech DB_TECHS) = [] then
    { mismatch := true
      details := some (dbMismatchDetails (sortedStrs (listInter claimed_normalized DB_TECHS).dedup)
        (sortedStrs (listInter actual_tech DB_TECHS).dedup)) }
  else if actual_tech ≠ [] ∧ listInter claimed_normalized actual_tech = [] then
    { mismatch := true
      details := some (generalMismatchDetails (sortedStrs claimed_normalized.dedup)
        actual_tech) }
  else { mismatch := false, details := none }

/-- `fact_check_lead`'s verdict as a function of the stored stack and the
concatenated web-evidence text: the claimed set is the lowercased stack, the
discovered set is `_extract_tech_mentions` of the evidence text. -/
def factCheckVerdict (claimedTechStack : List String) (allText : String) : MismatchVerdict :=
  mismatchPolicy ((claimedTechStack.map strLower).dedup) (extractTechMentions allText)

/-- Spec §4.4 tier 1: both sides claim a database technology and the database
subsets are disjoint. -/
def specDbTierMismatch (claimed discovered : List String) : Prop :=
  (∃ t ∈ claimed, t ∈ DB_TECHS) ∧ (∃ t ∈ discovered, t ∈ DB_TECHS) ∧
    ∀ t ∈ claimed, t ∈ DB_TECHS → t ∉ discovered

/-- Spec §4.4 tier 2: the discovered set is non-empty and the full
claimed/discovered intersection is empty. -/
def specGeneralMismatch (claimed discovered : List String) : Prop :=
  discovered ≠ [] ∧ ∀ t ∈ claimed, t ∉ discovered

theorem mem_listInter {xs ys : List String} {t : String} :
    t ∈ listInter xs ys ↔ t ∈ xs ∧ t ∈ ys := by
  simp [listInter, List.mem_filter, List.elem_iff]

theorem listInter_eq_nil_iff {xs ys : List String} :
    listInter xs ys = [] ↔ ∀ t ∈ xs, t ∉ ys := by
  simp [listInter, List.filter_eq_nil_iff, List.elem_iff]

theorem listInter_ne_nil_iff {xs ys : List String} :
    listInter xs ys ≠ [] ↔ ∃ t ∈ xs, t ∈ ys := by
  rw [Ne, listInter_eq_nil_iff]
  push_neg
  rfl



theorem tier1_cond_iff {claimed discovered : List String} :
    (listInter claimed DB_TECHS ≠ [] ∧ listInter discovered DB_TECHS ≠ [] ∧
      listInter (listInter claimed DB_TECHS) (listInter discovered DB_TECHS) = []) ↔
    specDbTierMismatch claimed discovered := by
  rw [listInter_ne_nil_iff, listInter_ne_nil_iff, listInter_eq_nil_iff]
  unfold specDbTierMismatch
  constructor
  · rintro ⟨h1, h2, h3⟩
    refine ⟨h1, h2, fun t ht htdb htd => ?_⟩
    exact h3 t (mem_listInter.mpr ⟨ht, htdb⟩) (mem_listInter.mpr ⟨htd, htdb⟩)
  · rintro ⟨h1, h2, h3⟩
    refine ⟨h1, h2, fun t ht htd => ?_⟩
    rcases mem_listInter.mp ht with ⟨htc, htdb⟩
    exact h3 t htc htdb (mem_listInter.mp htd).1

theorem tier2_cond_iff {claimed discovered : List String} :
    (discovered ≠ [] ∧ listInter claimed discovered = []) ↔
    specGeneralMismatch claimed discovered := by
  rw [listInter_eq_nil_iff]; rfl

/-- Claim C1: the mismatch verdict of `fact_check_lead` is decided by the
two-tier rule in this exact order — database subsets both non-empty and
disjoint first (details naming both database sets), else non-empty discovered
set with empty full intersection (details listing claimed vs. discovered),
else no mismatch; in particular postgres vs. mongodb mismatches while
postgres vs. postgres+aws does not. -/
theorem c1_two_tier_mismatch (claimed discovered : List String) :
    ((mismatchPolicy claimed discovered).mismatch = true ↔
        specDbTierMismatch claimed discovered ∨ specGeneralMismatch claimed discovered)
    ∧ (specDbTierMismatch claimed discovered →
        (mismatchPolicy claimed discovered).details =
          some (dbMismatchDetails (sortedStrs (listInter claimed DB_TECHS).dedup)
            (sortedStrs (listInter discovered DB_TECHS).dedup)))
    ∧ (¬ specDbTierMismatch claimed discovered → specGeneralMismatch claimed discovered →
        (mismatchPolicy claimed discovered).details =
          some (generalMismatchDetails (sortedStrs claimed.dedup) discovered))
    ∧ (mismatchPolicy ["postgres"] ["mongodb"]).mismatch = true
    ∧ (mismatchPolicy ["postgres"] ["postgres", "aws"]).mismatch = false := by
  refine ⟨?_, ?_, ?_, by decide, by decide⟩
  · by_cases hc1 : (listInter claimed DB_TECHS ≠ [] ∧ listInter discovered DB_TECHS ≠ [] ∧
        listInter (listInter claimed DB_TECHS) (listInter discovered DB_TECHS) = [])
    · unfold mismatchPolicy
      rw [if_pos hc1]
      exact iff_of_true rfl (Or.inl (tier1_cond_iff.mp hc1))
    · by_cases hc2 : (discovered ≠ [] ∧ listInter claimed discovered = [])
      · unfold mismatchPolicy
        rw [if_neg hc1, if_pos hc2]
        exact iff_of_true rfl (Or.inr (tier2_cond_iff.mp hc2))
      · unfold mismatchPolicy
        rw [if_neg hc1, if_neg hc2]
        refine iff_of_false (by simp) ?_
        rintro (h | h)
        · exact hc1 (tier1_cond_iff.mpr h)
        · exact hc2 (tier2_cond_iff.mpr h)
  · intro h
    unfold mismatchPolicy
    rw [if_pos (tier1_cond_iff.mpr h)]
  · intro h1 h2
    unfold mismatchPolicy
    rw [if_neg (fun hc => h1 (tier1_cond_iff.mp hc)), if_pos (tier2_cond_iff.mpr h2)]

theorem c1_witness :
    specDbTierMismatch ["postgres"] ["mongodb"] ∧
    (mismatchPolicy ["postgres"] ["mongodb"]).details =
      some (dbMismatchDetails (sortedStrs (listInter ["postgres"] DB_TECHS).dedup)
        (sortedStrs (listInter ["mongodb"] DB_TECHS).dedup)) :=
  ⟨tier1_cond_iff.mp (by decide),
   (c1_two_tier_mismatch ["postgres"] ["mongodb"]).2.1 (tier1_cond_iff.mp (by decide))⟩


theorem tech_nodup : TECH_KEYWORDS.Nodup := by decide

theorem not_mem_collapse {l : List String} {a b : String} (hnd : l.Nodup)
    (hcl : a ∈ l → b ∈ l) :
    a ∉ (if l.contains a && l.contains b then l.erase a else l) := by
  intro hx
  split_ifs at hx with h
  · exact ((List.Nodup.mem_erase_iff hnd).mp hx).1 rfl
  · have h1 : l.contains a = true := List.elem_iff.mpr hx
    have h2 : l.contains b = true := List.elem_iff.mpr (hcl hx)
    exact h (by rw [h1, h2]; rfl)

theorem extract_mem_found {text x : String} (hx : x ∈ extractTechMentions text) :
    x ∈ TECH_KEYWORDS ∧ strContains (strLower text) x = true := by
  unfold extractTechMentions at hx
  rw [mem_sortedStrs, List.mem_dedup] at hx
  split_ifs at hx <;>
    first
      | exact List.mem_filter.mp (List.mem_of_mem_erase (List.mem_of_mem_erase hx))
      | exact List.mem_filter.mp (List.mem_of_mem_erase hx)
      | exact List.mem_filter.mp hx

theorem postgresql_not_extract (text : String) :
    "postgresql" ∉ extractTechMentions text := by
  intro hx
  simp only [extractTechMentions] at hx
  rw [mem_sortedStrs, List.mem_dedup] at hx
  set f := TECH_KEYWORDS.filter (fun kw => strContains (strLower text) kw) with hf
  have hnd : f.Nodup := tech_nodup.filter _
  have hcl : "postgresql" ∈ f → "postgres" ∈ f := by
    intro hmem
    have hc := (List.mem_filter.mp hmem).2
    exact List.mem_filter.mpr ⟨by decide, strContains_trans hc (by decide)⟩
  have hnot := not_mem_collapse hnd hcl
  by_cases h1 : (f.contains "postgresql" && f.contains "postgres") = true
  · rw [if_pos h1] at hx hnot
    split_ifs at hx with h2
    · exact hnot (List.mem_of_mem_erase hx)
    · exact hnot hx
  · rw [if_neg h1] at hx hnot
    split_ifs at hx with h2
    · exact hnot (List.mem_of_mem_erase hx)
    · exact hnot hx

theorem golang_not_extract (text : String) :
    "golang" ∉ extractTechMentions text := by
  intro hx
  simp only [extractTechMentions] at hx
  rw [mem_sortedStrs, List.mem_dedup] at hx
  set f := TECH_KEYWORDS.filter (fun kw => strContains (strLower text) kw) with hf
  set f1 := (if f.contains "postgresql" && f.contains "postgres" then
    f.erase "postgresql" else f) with hf1
  have hnd1 : f1.Nodup := by
    rw [hf1]
    split_ifs
    · exact (tech_nodup.filter _).erase _
    · exact tech_nodup.filter _
  have hcl : "golang" ∈ f1 → "go" ∈ f1 := by
    intro hg
    have hgf : "golang" ∈ f := by
      rw [hf1] at hg
      split_ifs at hg
      · exact List.mem_of_mem_erase hg
      · exact hg
    have hgo : "go" ∈ f := by
      have hc := (List.mem_filter.mp hgf).2
      exact List.mem_filter.mpr ⟨by decide, strContains_trans hc (by decide)⟩
    rw [hf1]
    split_ifs
    · exact (List.mem_erase_of_ne (by decide)).mpr hgo
    · exact hgo
  exact not_mem_collapse hnd1 hcl hx

/-- Claim C5 (amended): before the policy runs, the discovered set is
normalized to the lowercase keyword vocabulary with the spellings postgresql
and golang collapsed (neither ever appears in an extraction), but the claimed
set is only lowercased with no synonym collapsing, so a claimed `PostgreSQL`
against discovered evidence `postgres` does yield a mismatch. -/
theorem c5_normalization_amended (text : String) (claimed : List String) :
    "postgresql" ∉ extractTechMentions text ∧
    "golang" ∉ extractTechMentions text ∧
    (∀ x ∈ extractTechMentions text, x ∈ TECH_KEYWORDS ∧
      strContains (strLower text) x = true) ∧
    factCheckVerdict claimed text =
      mismatchPolicy ((claimed.map strLower).dedup) (extractTechMentions text) ∧
    (factCheckVerdict ["PostgreSQL"] "postgres").mismatch = true :=
  ⟨postgresql_not_extract text, golang_not_extract text,
   fun _ hx => extract_mem_found hx, rfl, by decide⟩

/-- Claim C5 counterexample: the synonym pair postgresql/postgres alone makes
`fact_check_lead` report a database mismatch, because the claimed side is not
collapsed to the canonical spelling. -/
theorem c5_synonym_cex :
    extractTechMentions "postgres" = ["postgres"] ∧
    (factCheckVerdict ["PostgreSQL"] "postgres").mismatch = true ∧
    (factCheckVerdict ["PostgreSQL"] "postgres").details =
      some (dbMismatchDetails ["postgresql"] ["postgres"]) := by decide

theorem c5_amended_witness :
    "postgresql" ∉ extractTechMentions "postgresql and golang" ∧
    "golang" ∉ extractTechMentions "postgresql and golang" ∧
    "go" ∈ extractTechMentions "postgresql and golang" ∧
    "postgres" ∈ extractTechMentions "postgresql and golang" :=
  ⟨(c5_normalization_amended "postgresql and golang" []).1,
   (c5_normalization_amended "postgresql and golang" []).2.1,
   by decide, by decide⟩



/-! ### `services/slm_service.py`: `classify_lead` -/

def VALID_CLASSIFICATIONS : List String := ["Strike", "Monitor", "Disregard"]

/-- The punctuation set of `raw.strip().split()[0].strip(".,;:\x22\x27")`. -/
def punctChars : List Char := ".,;:".data ++ [Char.ofNat 34, Char.ofNat 39]

/-- Python's `str.strip(chars)`: drop the given characters from both ends. -/
def stripBoth (cs : List Char) (s : List Char) : List Char :=
  ((s.dropWhile (fun c => cs.contains c)).reverse.dropWhile
    (fun c => cs.contains c)).reverse

/-- Python's whitespace split `str.split()`: maximal non-whitespace runs. -/
def wsTokensAux : List Char → List Char → List (List Char)
  | [], acc => if acc.isEmpty then [] else [acc.reverse]
  | c :: rest, acc =>
    if c.isWhitespace then
      if acc.isEmpty then wsTokensAux rest [] else acc.reverse :: wsTokensAux rest []
    else wsTokensAux rest (c :: acc)

def wsTokens (l : List Char) : List (List Char) := wsTokensAux l []

/-- `classify_lead`'s decoding of the raw provider text (lines 192-202).
`none` models the `IndexError` Python raises on whitespace-only text; the
fallback scan over the `VALID_CLASSIFICATIONS` set is embedded in the listed
order (Python set iteration order is unspecified). -/
def classifyLabel (raw : String) : Option String :=
  match wsTokens raw.data with
  | [] => none
  | tok :: _ =>
    let label := String.mk (stripBoth punctChars tok)
    if VALID_CLASSIFICATIONS.contains label then some label
    else
      match VALID_CLASSIFICATIONS.find? (fun v => strContains (strLower raw) (strLower v)) with
      | some v => some v
      | none => some "Monitor"

theorem wsTokensAux_ne_nil {l : List Char} {acc : List Char}
    (h : (∃ c ∈ l, c.isWhitespace = false) ∨ acc ≠ []) : wsTokensAux l acc ≠ [] := by
  induction l generalizing acc with
  | nil =>
    rcases h with ⟨c, hc, _⟩ | hacc
    · cases hc
    · simp [wsTokensAux, List.isEmpty_iff, hacc]
  | cons c rest ih =>
    by_cases hw : c.isWhitespace = true
    · rcases Decidable.em (acc = []) with rfl | hacc
      · have hex : ∃ d ∈ rest, d.isWhitespace = false := by
          rcases h with ⟨d, hd, hdw⟩ | hacc
          · rcases List.mem_cons.mp hd with rfl | hd2
            · rw [hw] at hdw; cases hdw
            · exact ⟨d, hd2, hdw⟩
          · exact absurd rfl hacc
        rw [show wsTokensAux (c :: rest) [] = wsTokensAux rest [] by
          simp [wsTokensAux, hw]]
        exact ih (Or.inl hex)
      · rw [show wsTokensAux (c :: rest) acc = acc.reverse :: wsTokensAux rest [] by
          simp [wsTokensAux, hw, List.isEmpty_iff, hacc]]
        exact List.cons_ne_nil _ _
    · rw [show wsTokensAux (c :: rest) acc = wsTokensAux rest (c :: acc) by
        simp [wsTokensAux, hw]]
      exact ih (Or.inr (List.cons_ne_nil _ _))

/-- Claim C10: on provider text with at least one non-whitespace character,
`classify_lead` always produces one of the three labels; on whitespace-only
text the first indexing step raises, which the embedding returns as `none`. -/
theorem c10_classify_total (raw : String)
    (h : ∃ c ∈ raw.data, c.isWhitespace = false) :
    ∃ l, classifyLabel raw = some l ∧ l ∈ VALID_CLASSIFICATIONS := by
  unfold classifyLabel
  cases htok : wsTokens raw.data with
  | nil => exact absurd htok (wsTokensAux_ne_nil (Or.inl h))
  | cons tok ts =>
    dsimp only
    by_cases hlab : VALID_CLASSIFICATIONS.contains (String.mk (stripBoth punctChars tok)) = true
    · rw [if_pos hlab]
      exact ⟨_, rfl, List.elem_iff.mp hlab⟩
    · rw [if_neg hlab]
      cases hfind : VALID_CLASSIFICATIONS.find? (fun v => strContains (strLower raw) (strLower v)) with
      | none => exact ⟨"Monitor", rfl, by decide⟩
      | some v => exact ⟨v, rfl, List.mem_of_find?_eq_some hfind⟩

theorem c10_witness :
    (∃ c ∈ "  Strike".data, c.isWhitespace = false) ∧
    ∃ l, classifyLabel "  Strike" = some l ∧ l ∈ VALID_CLASSIFICATIONS :=
  ⟨by decide, c10_classify_total "  Strike" (by decide)⟩

/-- Claim C7: when the first whitespace-delimited token, stripped of surrounding
punctuation, is not one of the three labels, `classify_lead` scans the raw
text case-insensitively: it returns a label that occurs in the text, and
returns `Monitor` when no label occurs at all. -/
theorem c7_classify_fallback (raw : String) (tok : List Char) (ts : List (List Char))
    (htok : wsTokens raw.data = tok :: ts)
    (hinvalid : VALID_CLASSIFICATIONS.contains (String.mk (stripBoth punctChars tok)) = false) :
    ((∀ v ∈ VALID_CLASSIFICATIONS, strContains (strLower raw) (strLower v) = false) →
        classifyLabel raw = some "Monitor")
    ∧ ((∃ v ∈ VALID_CLASSIFICATIONS, strContains (strLower raw) (strLower v) = true) →
        ∃ v, classifyLabel raw = some v ∧ v ∈ VALID_CLASSIFICATIONS ∧
          strContains (strLower raw) (strLower v) = true) := by
  unfold classifyLabel
  rw [htok]
  dsimp only
  rw [if_neg (by rw [hinvalid]; exact Bool.false_ne_true)]
  constructor
  · intro hnone
    rw [List.find?_eq_none.mpr (fun v hv => by rw [hnone v hv]; exact Bool.false_ne_true)]
  · intro hex
    have hsome : (VALID_CLASSIFICATIONS.find? (fun v => strContains (strLower raw) (strLower v))).isSome := by
      rw [List.find?_isSome]
      rcases hex with ⟨v, hv, hocc⟩
      exact ⟨v, hv, hocc⟩
    rcases Option.isSome_iff_exists.mp hsome with ⟨v, hfind⟩
    rw [hfind]
    have hp := @List.find?_some String (fun v => strContains (strLower raw) (strLower v)) v VALID_CLASSIFICATIONS hfind
    exact ⟨v, rfl, List.mem_of_find?_eq_some hfind, hp⟩

theorem c7_witness :
    classifyLabel "unclear gibberish" = some "Monitor" ∧
    classifyLabel "I would disregard this one" = some "Disregard" := by
  constructor
  · exact (c7_classify_fallback "unclear gibberish" "unclear".data ["gibberish".data]
      (by decide) (by decide)).1 (by decide)
  · have h := (c7_classify_fallback "I would disregard this one" "I".data
      ["would".data, "disregard".data, "this".data, "one".data]
      (by decide) (by decide)).2 ⟨"Disregard", by decide, by decide⟩
    rcases h with ⟨v, hv, hmem, hocc⟩
    rw [hv]
    have : v = "Disregard" := by
      rcases List.mem_cons.mp hmem with rfl | hmem2
      · exact absurd hocc (by decide)
      · rcases List.mem_cons.mp hmem2 with rfl | hmem3
        · exact absurd hocc (by decide)
        · rcases List.mem_cons.mp hmem3 with rfl | hmem4
          · rfl
          · cases hmem4
    rw [this]



/-! ### The graph state -/

/-- A `Strategy` node. -/
structure Strategy where
  version : Nat
  product_description : String
  icp : String
  keywords : List String
  competitors : List String
deriving Repr, DecidableEq

/-- A `Company` (lead) node. -/
structure Company where
  name : String
  domain : String
  tech_stack : List String
  classification : Option String
deriving Repr, DecidableEq

/-- A `Lesson` node; Neo4j datetimes are modelled as `Nat` instants. -/
structure Lesson where
  lesson_id : String
  type : String
  details : String
  timestamp : Nat
deriving Repr, DecidableEq

/-- The Neo4j graph: node lists plus the `TARGETS`, `EVOLVED_FROM` and
`LEARNED_FROM` edge lists (the latter split by source label). -/
structure Db where
  strategies : List Strategy
  companies : List Company
  lessons : List Lesson
  targets : List (Nat × String)
  evolvedEdges : List (Nat × Nat)
  strategyLessons : List (Nat × String)
  companyLessons : List (String × String)
deriving Repr, DecidableEq

/-- The query `MATCH (s:Strategy) RETURN s ORDER BY s.version DESC LIMIT 1`
(`_get_current_strategy` in `validation.py` and `pivot.py`). -/
def currentStrategy (db : Db) : Option Strategy :=
  db.strategies.argmax (fun s => s.version)

/-! ### `agent/validation.py` -/

/-- `FAILURE_THRESHOLD = 0.6`, embedded exactly over `ℚ`. -/
def FAILURE_THRESHOLD : ℚ := 3 / 5

/-- `_store_pivot_lesson`: create a `SegmentPivot` lesson linked to the
max-version strategy; the Cypher `MATCH` makes it a no-op with no strategy. -/
def storePivotLesson (db : Db) (lesson_id details : String) (now : Nat) : Db :=
  match currentStrategy db with
  | none => db
  | some s =>
    { db with
      lessons := db.lessons ++
        [{ lesson_id := lesson_id, type := "SegmentPivot", details := details,
           timestamp := now }]
      strategyLessons := db.strategyLessons ++ [(s.version, lesson_id)] }

/-- One element of the `results` list of `run_validation_loop`. -/
structure LeadResult where
  company : String
  classification : String
deriving Repr, DecidableEq

/-- `counts["Disregard"]` of `run_validation_loop`. -/
def disregardCount (results : List LeadResult) : Nat :=
  (results.filter (fun r => r.classification == "Disregard")).length

/-- The ordered `disregarded` name list of `run_validation_loop`. -/
def disregardedNames (results : List LeadResult) : List String :=
  (results.filter (fun r => r.classification == "Disregard")).map (fun r => r.company)

/-- `disregard_rate = counts["Disregard"] / len(results) if results else 0`. -/
def disregardRate (results : List LeadResult) : ℚ :=
  if results.isEmpty then 0
  else (disregardCount results : ℚ) / (results.length : ℚ)

/-- Banker's rounding (Python's float formatting rounds half to even). -/
def pctRound (q : ℚ) : Int :=
  if q - ⌊q⌋ < 1 / 2 then ⌊q⌋
  else if q - ⌊q⌋ > 1 / 2 then ⌊q⌋ + 1
  else if ⌊q⌋ % 2 = 0 then ⌊q⌋ else ⌊q⌋ + 1

/-- Python's `f"{q:.0%}"`. -/
def pctString (q : ℚ) : String := toString (pctRound (q * 100)) ++ "%"

/-- The details f-string of the pivot lesson in `run_validation_loop`. -/
def pivotDetails (rate : ℚ) (disregarded : List String) : String :=
  "Disregard rate " ++ pctString rate ++ " exceeds " ++
    pctString FAILURE_THRESHOLD ++ " threshold. Disregarded leads: " ++
    joinSep ", " disregarded ++ ". Strategy needs refinement."

/-- The result fields of `run_validation_loop` the aggregation step sets. -/
structure ValidationOutcome where
  db : Db
  total_leads : Nat
  disregard : Nat
  pivot_triggered : Bool
deriving Repr, DecidableEq

/-- Lines 285-298 of `run_validation_loop`: count classifications, compare the
disregard rate against the threshold, and store the pivot lesson when it is
strictly exceeded. `lesson_id`/`now` stand for the generated uuid and clock. -/
def runValidationAggregate (db : Db) (results : List LeadResult)
    (lesson_id : String) (now : Nat) : ValidationOutcome :=
  if disregardRate results > FAILURE_THRESHOLD then
    { db := storePivotLesson db lesson_id
        (pivotDetails (disregardRate results) (disregardedNames results)) now
      total_leads := results.length
      disregard := disregardCount results
      pivot_triggered := true }
  else
    { db := db
      total_leads := results.length
      disregard := disregardCount results
      pivot_triggered := false }

theorem disregardRate_gt_iff {results : List LeadResult} (hne : results ≠ []) :
    disregardRate results > FAILURE_THRESHOLD ↔
      5 * disregardCount results > 3 * results.length := by
  have hlen : 0 < results.length := List.length_pos.mpr hne
  have hlenq : (0 : ℚ) < (results.length : ℚ) := by exact_mod_cast hlen
  rw [disregardRate, if_neg (by simp [List.isEmpty_iff, hne])]
  rw [FAILURE_THRESHOLD, gt_iff_lt, div_lt_div_iff₀ (by norm_num) hlenq]
  constructor
  · intro h
    have : (3 * results.length : ℚ) < (5 * disregardCount results : ℚ) := by
      linarith
    exact_mod_cast this
  · intro h
    have : (3 * results.length : ℚ) < (5 * disregardCount results : ℚ) := by
      exact_mod_cast h
    push_cast at this
    linarith

/-- Claim C2: a non-empty validation pass triggers a pivot, and stores exactly one
`SegmentPivot` lesson attached to the max-version strategy at emission time
with details containing the rate and the ordered disregarded names, exactly
when the disregard rate strictly exceeds `0.6`; otherwise the state is
untouched. -/
theorem c2_pivot_threshold (db : Db) (results : List LeadResult)
    (lesson_id : String) (now : Nat) (s : Strategy)
    (hne : results ≠ []) (hcur : currentStrategy db = some s) :
    ((runValidationAggregate db results lesson_id now).pivot_triggered = true ↔
      5 * disregardCount results > 3 * results.length)
    ∧ ((runValidationAggregate db results lesson_id now).pivot_triggered = true →
        (runValidationAggregate db results lesson_id now).db.lessons =
          db.lessons ++ [⟨lesson_id, "SegmentPivot",
            pivotDetails (disregardRate results) (disregardedNames results), now⟩] ∧
        (runValidationAggregate db results lesson_id now).db.strategyLessons =
          db.strategyLessons ++ [(s.version, lesson_id)] ∧
        (∀ u ∈ db.strategies, u.version ≤ s.version) ∧
        strContains (pivotDetails (disregardRate results) (disregardedNames results))
          (joinSep ", " (disregardedNames results)) = true ∧
        strContains (pivotDetails (disregardRate results) (disregardedNames results))
          (pctString (disregardRate results)) = true)
    ∧ ((runValidationAggregate db results lesson_id now).pivot_triggered = false →
        (runValidationAggregate db results lesson_id now).db = db) := by
  have hmax : ∀ u ∈ db.strategies, u.version ≤ s.version := fun u hu =>
    List.le_of_mem_argmax hu (Option.mem_def.mpr hcur)
  by_cases hgt : disregardRate results > FAILURE_THRESHOLD
  · unfold runValidationAggregate
    rw [if_pos hgt]
    refine ⟨iff_of_true rfl ((disregardRate_gt_iff hne).mp hgt), fun _ => ?_, fun hf => ?_⟩
    · refine ⟨by simp only [storePivotLesson, hcur], by simp only [storePivotLesson, hcur],
        hmax, ?_, ?_⟩
      · unfold pivotDetails
        exact strContains_append_left _ (strContains_append_right _ (strContains_self _))
      · unfold pivotDetails
        exact strContains_append_left _ (strContains_append_left _
          (strContains_append_left _ (strContains_append_left _
            (strContains_append_left _ (strContains_append_right _ (strContains_self _))))))
    · cases hf
  · unfold runValidationAggregate
    rw [if_neg hgt]
    refine ⟨iff_of_false (by simp) (fun hc => hgt ((disregardRate_gt_iff hne).mpr hc)),
      fun ht => ?_, fun _ => rfl⟩
    cases ht

/-- A one-strategy state for exercising the validation pass. -/
def wStrategy : Strategy :=
  { version := 1, product_description := "p", icp := "icp", keywords := [], competitors := [] }

def wDb : Db :=
  { strategies := [wStrategy], companies := [], lessons := [], targets := [],
    evolvedEdges := [], strategyLessons := [], companyLessons := [] }

/-- A pass of `d` Disregard results followed by `m` Monitor results. -/
def wResults (d m : Nat) : List LeadResult :=
  List.replicate d { company := "x", classification := "Disregard" } ++
    List.replicate m { company := "y", classification := "Monitor" }

theorem c2_witness :
    (runValidationAggregate wDb (wResults 7 3) "les-1" 0).pivot_triggered = true ∧
    (runValidationAggregate wDb (wResults 6 4) "les-1" 0).pivot_triggered = false ∧
    (runValidationAggregate wDb (wResults 6 4) "les-1" 0).db = wDb := by
  have h7 := c2_pivot_threshold wDb (wResults 7 3) "les-1" 0 wStrategy (by decide) (by decide)
  have h6 := c2_pivot_threshold wDb (wResults 6 4) "les-1" 0 wStrategy (by decide) (by decide)
  have hnot : ¬ (5 * disregardCount (wResults 6 4) > 3 * (wResults 6 4).length) := by decide
  have hfalse : (runValidationAggregate wDb (wResults 6 4) "les-1" 0).pivot_triggered = false := by
    cases hb : (runValidationAggregate wDb (wResults 6 4) "les-1" 0).pivot_triggered
    · rfl
    · exact absurd (h6.1.mp hb) hnot
  exact ⟨h7.1.mpr (by decide), hfalse, h6.2.2 hfalse⟩

/-! ### `agent/strategy.py` -/

/-- `_get_latest_strategy_version`: Cypher `max(s.version)`, with the Python
`or 0` fallback when no strategy exists. -/
def getLatestStrategyVersion (db : Db) : Nat :=
  db.strategies.foldr (fun s m => max s.version m) 0

/-- Lessons ordered by timestamp, as `_get_lessons` returns them. -/
def lessonTimeLe (a b : Lesson) : Prop := a.timestamp ≤ b.timestamp

instance : DecidableRel lessonTimeLe := fun a b => Nat.decLe a.timestamp b.timestamp

instance : IsTotal Lesson lessonTimeLe := ⟨fun a b => Nat.le_total a.timestamp b.timestamp⟩

instance : IsTrans Lesson lessonTimeLe := ⟨fun _ _ _ => Nat.le_trans⟩

/-- `_get_lessons`: all Lesson nodes, `ORDER BY l.timestamp` (a stable sort). -/
def getLessons (db : Db) : List Lesson :=
  List.insertionSort lessonTimeLe db.lessons

/-- The decoded `{icp, keywords, competitors}` JSON of the SLM. -/
structure StrategyData where
  icp : String
  keywords : List String
  competitors : List String
deriving Repr, DecidableEq

/-- `refine_strategy`'s `lessons_text`: one `- [type] details` line per lesson. -/
def lessonsText (lessons : List Lesson) : String :=
  joinSep "\n" (lessons.map (fun l => "- [" ++ l.type ++ "] " ++ l.details))

/-- `refine_strategy`'s `user_prompt`. -/
def refineUserPrompt (pd mrJson : String) (lessons : List Lesson) : String :=
  "Product: " ++ pd ++ "\n\nMarket research:\n" ++ mrJson ++
    "\n\nLessons from previous rounds:\n" ++ lessonsText lessons

/-- `_store_strategy`: create the node, link TARGETS to every company, and
`MERGE` the EVOLVED_FROM edge — the Cypher `MATCH` on the previous version
yields no row (hence no edge) when that version does not exist. -/
def storeStrategy (db : Db) (data : StrategyData) (pd : String)
    (version : Nat) (prev : Option Nat) : Db :=
  let db1 : Db :=
    { db with
      strategies := db.strategies ++
        [{ version := version, product_description := pd, icp := data.icp,
           keywords := data.keywords, competitors := data.competitors }]
      targets := db.targets ++ db.companies.map (fun c => (version, c.domain)) }
  match prev with
  | none => db1
  | some p =>
    if db1.strategies.any (fun s => s.version == p) then
      { db1 with evolvedEdges := db1.evolvedEdges ++ [(version, p)] }
    else db1

/-- The result of `run_strategy_generation` as far as the claims reach. -/
structure GenOutcome where
  db : Db
  version : Nat
  evolved_from : Option Nat
  usedRefine : Bool
  refinePromptUsed : Option String
deriving Repr, DecidableEq

/-- Lines 128-151 of `run_strategy_generation`: fetch lessons and the latest
version, branch to refine (any lesson) or generate (none), then store.
`out` is the decoded provider output and `mrJson` the serialized research. -/
def runStrategyGeneration (db : Db) (pd mrJson : String) (out : StrategyData) : GenOutcome :=
  if (getLessons db).isEmpty then
    { db := storeStrategy db out pd (getLatestStrategyVersion db + 1)
        (if getLatestStrategyVersion db > 0 then some (getLatestStrategyVersion db) else none)
      version := getLatestStrategyVersion db + 1
      evolved_from :=
        if getLatestStrategyVersion db > 0 then some (getLatestStrategyVersion db) else none
      usedRefine := false
      refinePromptUsed := none }
  else
    { db := storeStrategy db out pd (getLatestStrategyVersion db + 1)
        (some (getLatestStrategyVersion db))
      version := getLatestStrategyVersion db + 1
      evolved_from := some (getLatestStrategyVersion db)
      usedRefine := true
      refinePromptUsed := some (refineUserPrompt pd mrJson (getLessons db)) }

theorem getLessons_isEmpty_iff {db : Db} :
    (getLessons db).isEmpty = true ↔ db.lessons = [] := by
  rw [List.isEmpty_iff]
  constructor
  · intro h
    have hlen : (getLessons db).length = db.lessons.length :=
      (List.perm_insertionSort lessonTimeLe db.lessons).length_eq
    rw [h] at hlen
    exact List.length_eq_zero.mp hlen.symm
  · intro h
    rw [getLessons, h]
    rfl

/-- Claim C3: any stored lesson forces the refine path and its prompt incorporates
every stored lesson in timestamp order; with no lesson the compose path runs. -/
theorem c3_lessons_force_refine (db : Db) (pd mrJson : String) (out : StrategyData) :
    ((runStrategyGeneration db pd mrJson out).usedRefine = true ↔ db.lessons ≠ [])
    ∧ (db.lessons ≠ [] →
        (runStrategyGeneration db pd mrJson out).refinePromptUsed =
          some (refineUserPrompt pd mrJson (getLessons db)) ∧
        (getLessons db).Perm db.lessons ∧
        List.Sorted lessonTimeLe (getLessons db) ∧
        (∀ l ∈ db.lessons,
          strContains (refineUserPrompt pd mrJson (getLessons db))
            ("- [" ++ l.type ++ "] " ++ l.details) = true))
    ∧ (db.lessons = [] →
        (runStrategyGeneration db pd mrJson out).usedRefine = false ∧
        (runStrategyGeneration db pd mrJson out).refinePromptUsed = none) := by
  by_cases hemp : (getLessons db).isEmpty = true
  · have hnil : db.lessons = [] := getLessons_isEmpty_iff.mp hemp
    unfold runStrategyGeneration
    rw [if_pos hemp]
    exact ⟨iff_of_false (by simp) (fun h => h hnil), fun h => absurd hnil h,
      fun _ => ⟨rfl, rfl⟩⟩
  · have hnil : db.lessons ≠ [] := fun h => hemp (getLessons_isEmpty_iff.mpr h)
    unfold runStrategyGeneration
    rw [if_neg hemp]
    refine ⟨iff_of_true rfl hnil, fun _ => ⟨rfl, List.perm_insertionSort _ _,
      List.sorted_insertionSort _ _, fun l hl => ?_⟩, fun h => absurd h hnil⟩
    have hmem : l ∈ getLessons db :=
      (List.perm_insertionSort lessonTimeLe db.lessons).mem_iff.mpr hl
    have hline : ("- [" ++ l.type ++ "] " ++ l.details) ∈
        (getLessons db).map (fun u => "- [" ++ u.type ++ "] " ++ u.details) :=
      List.mem_map_of_mem _ hmem
    have hjoin : strContains (lessonsText (getLessons db))
        ("- [" ++ l.type ++ "] " ++ l.details) = true :=
      strContains_joinSep hline
    exact strContains_append_right _ hjoin

/-- A one-lesson, one-strategy state. -/
def wLesson : Lesson := ⟨"les-9", "TechStackMismatch", "avoid mongodb-first stacks", 3⟩

def wDbLessons : Db := { wDb with lessons := [wLesson] }

theorem c3_witness :
    (runStrategyGeneration wDbLessons "p" "mr" ⟨"i", [], []⟩).usedRefine = true ∧
    (runStrategyGeneration wDbLessons "p" "mr" ⟨"i", [], []⟩).refinePromptUsed =
      some (refineUserPrompt "p" "mr" (getLessons wDbLessons)) ∧
    strContains (refineUserPrompt "p" "mr" (getLessons wDbLessons))
      ("- [" ++ wLesson.type ++ "] " ++ wLesson.details) = true := by
  have h := c3_lessons_force_refine wDbLessons "p" "mr" ⟨"i", [], []⟩
  have h2 := h.2.1 (by decide)
  exact ⟨h.1.mpr (by decide), h2.1, h2.2.2.2 wLesson (by decide)⟩

theorem foldr_max_le {l : List Strategy} {s : Strategy} (hs : s ∈ l) :
    s.version ≤ l.foldr (fun s m => max s.version m) 0 := by
  induction l with
  | nil => cases hs
  | cons a as ih =>
    rcases List.mem_cons.mp hs with rfl | h
    · exact Nat.le_max_left _ _
    · exact le_trans (ih h) (Nat.le_max_right _ _)

theorem foldr_max_append (l : List Strategy) (x : Strategy) :
    (l ++ [x]).foldr (fun s m => max s.version m) 0 =
      max (l.foldr (fun s m => max s.version m) 0) x.version := by
  induction l with
  | nil => simp [Nat.max_comm]
  | cons a as ih => simp [ih, Nat.max_assoc]

theorem storeStrategy_strategies (db : Db) (data : StrategyData) (pd : String)
    (version : Nat) (prev : Option Nat) :
    (storeStrategy db data pd version prev).strategies =
      db.strategies ++ [⟨version, pd, data.icp, data.keywords, data.competitors⟩] := by
  unfold storeStrategy
  cases prev with
  | none => rfl
  | some p =>
    dsimp only
    split_ifs <;> rfl

/-- Claim C4: a new strategy takes version max+1 (1 on an empty store), strictly
above every stored version, and the store's max version advances by one. -/
theorem c4_version_monotonic (db : Db) (pd mrJson : String) (out : StrategyData) :
    (runStrategyGeneration db pd mrJson out).version = getLatestStrategyVersion db + 1
    ∧ (db.strategies = [] → (runStrategyGeneration db pd mrJson out).version = 1)
    ∧ (∀ s ∈ db.strategies, s.version < (runStrategyGeneration db pd mrJson out).version)
    ∧ getLatestStrategyVersion (runStrategyGeneration db pd mrJson out).db =
        getLatestStrategyVersion db + 1 := by
  have hver : (runStrategyGeneration db pd mrJson out).version =
      getLatestStrategyVersion db + 1 := by
    unfold runStrategyGeneration
    split_ifs <;> rfl
  have hdbst : (runStrategyGeneration db pd mrJson out).db.strategies =
      db.strategies ++ [⟨getLatestStrategyVersion db + 1, pd, out.icp, out.keywords,
        out.competitors⟩] := by
    unfold runStrategyGeneration
    split_ifs <;> rw [storeStrategy_strategies]
  refine ⟨hver, ?_, ?_, ?_⟩
  · intro h
    rw [hver]
    unfold getLatestStrategyVersion
    rw [h]
    rfl
  · intro s hs
    rw [hver]
    exact Nat.lt_succ_of_le (foldr_max_le hs)
  · unfold getLatestStrategyVersion
    rw [hdbst, foldr_max_append]
    exact max_eq_right (Nat.le_succ _)

theorem c4_witness :
    (runStrategyGeneration wDb "p" "mr" ⟨"i", [], []⟩).version = 2 ∧
    getLatestStrategyVersion (runStrategyGeneration wDb "p" "mr" ⟨"i", [], []⟩).db = 2 ∧
    (∀ s ∈ wDb.strategies, s.version < 2) := by
  have h := c4_version_monotonic wDb "p" "mr" ⟨"i", [], []⟩
  have hl : getLatestStrategyVersion wDb = 1 := by decide
  refine ⟨by rw [h.1, hl], by rw [h.2.2.2, hl], fun s hs => ?_⟩
  have := h.2.2.1 s hs
  rwa [h.1, hl] at this

theorem storeStrategy_edge_created {db : Db} {data : StrategyData} {pd : String}
    {version p : Nat} (h : ∃ s ∈ db.strategies, s.version = p) :
    (storeStrategy db data pd version (some p)).evolvedEdges =
      db.evolvedEdges ++ [(version, p)] := by
  unfold storeStrategy
  dsimp only
  rw [if_pos]
  rw [List.any_eq_true]
  rcases h with ⟨s, hs, hsp⟩
  exact ⟨s, List.mem_append_left _ hs, by simpa using hsp⟩

theorem storeStrategy_edge_skipped {db : Db} {data : StrategyData} {pd : String}
    {version p : Nat} (h : ∀ s ∈ db.strategies, s.version ≠ p) (hvp : version ≠ p) :
    (storeStrategy db data pd version (some p)).evolvedEdges = db.evolvedEdges := by
  unfold storeStrategy
  dsimp only
  rw [if_neg]
  rw [List.any_eq_true]
  rintro ⟨s, hs, hsp⟩
  rcases List.mem_append.mp hs with hs1 | hs2
  · exact h s hs1 (by simpa using hsp)
  · rcases List.mem_singleton.mp hs2 with rfl
    exact hvp (by simpa using hsp)

theorem storeStrategy_edges_none {db : Db} {data : StrategyData} {pd : String}
    {version : Nat} :
    (storeStrategy db data pd version none).evolvedEdges = db.evolvedEdges := rfl

/-- Claim C9 (amended): an EVOLVED_FROM edge is only ever created toward an existing
prior strategy version — exactly one under the uniqueness constraint; with no
prior strategy no edge is created, the compose path reports a null
`evolved_from`, but the refine path (lessons present) reports `0`. -/
theorem c9_evolved_from_amended (db : Db) (pd mrJson : String) (out : StrategyData)
    (hnodup : (db.strategies.map (fun s => s.version)).Nodup) :
    (∀ p, (runStrategyGeneration db pd mrJson out).evolved_from = some p →
      (∃ s ∈ db.strategies, s.version = p) →
        (runStrategyGeneration db pd mrJson out).db.evolvedEdges =
          db.evolvedEdges ++ [(getLatestStrategyVersion db + 1, p)] ∧
        (∃! s, s ∈ db.strategies ∧ s.version = p))
    ∧ (∀ p, (runStrategyGeneration db pd mrJson out).evolved_from = some p →
        (∀ s ∈ db.strategies, s.version ≠ p) →
          (runStrategyGeneration db pd mrJson out).db.evolvedEdges = db.evolvedEdges)
    ∧ (db.strategies = [] → db.lessons = [] →
        (runStrategyGeneration db pd mrJson out).evolved_from = none)
    ∧ (db.strategies = [] → db.lessons ≠ [] →
        (runStrategyGeneration db pd mrJson out).evolved_from = some 0 ∧
        (runStrategyGeneration db pd mrJson out).db.evolvedEdges = db.evolvedEdges) := by
  have huniq : ∀ p, (∃ s ∈ db.strategies, s.version = p) →
      ∃! s, s ∈ db.strategies ∧ s.version = p := by
    rintro p ⟨s, hs, hsp⟩
    refine ⟨s, ⟨hs, hsp⟩, ?_⟩
    rintro t ⟨ht, htp⟩
    exact List.inj_on_of_nodup_map hnodup ht hs (by rw [htp, hsp])
  have hprev : ∀ p, (runStrategyGeneration db pd mrJson out).evolved_from = some p →
      p = getLatestStrategyVersion db := by
    intro p hp
    unfold runStrategyGeneration at hp
    split_ifs at hp with hemp hpos
    all_goals exact (Option.some.inj hp).symm
  refine ⟨?_, ?_, ?_, ?_⟩
  · intro p hp hex
    have hpv := hprev p hp
    subst hpv
    refine ⟨?_, huniq _ hex⟩
    unfold runStrategyGeneration
    split_ifs with hemp hpos
    · exact storeStrategy_edge_created hex
    · rcases hex with ⟨s, hs, hsp⟩
      have := foldr_max_le hs
      rw [hsp] at this
      unfold runStrategyGeneration at hp
      rw [if_pos hemp] at hp
      dsimp only at hp
      rw [if_neg hpos] at hp
      cases hp
    · exact storeStrategy_edge_created hex
  · intro p hp hnone
    have hpv := hprev p hp
    subst hpv
    have hvp : getLatestStrategyVersion db + 1 ≠ getLatestStrategyVersion db :=
      Nat.succ_ne_self _
    unfold runStrategyGeneration
    split_ifs with hemp hpos
    · exact storeStrategy_edge_skipped hnone hvp
    · exact storeStrategy_edges_none
    · exact storeStrategy_edge_skipped hnone hvp
  · intro hstr hles
    have hemp : (getLessons db).isEmpty = true := getLessons_isEmpty_iff.mpr hles
    have hlat : getLatestStrategyVersion db = 0 := by
      unfold getLatestStrategyVersion
      rw [hstr]
      rfl
    unfold runStrategyGeneration
    rw [if_pos hemp]
    dsimp only
    rw [if_neg (by rw [hlat]; exact Nat.lt_irrefl 0)]
  · intro hstr hles
    have hemp : ¬ (getLessons db).isEmpty = true := fun h =>
      hles (getLessons_isEmpty_iff.mp h)
    have hlat : getLatestStrategyVersion db = 0 := by
      unfold getLatestStrategyVersion
      rw [hstr]
      rfl
    unfold runStrategyGeneration
    rw [if_neg hemp]
    dsimp only
    refine ⟨by rw [hlat], ?_⟩
    refine storeStrategy_edge_skipped (fun s hs => ?_) ?_
    · rw [hstr] at hs
      cases hs
    · rw [hlat]
      exact Nat.one_ne_zero

/-- C9 counterexample state: one lesson stored, no strategy. -/
def c9Db : Db :=
  { strategies := [], companies := [], lessons := [⟨"les-1", "TechStackMismatch", "d", 0⟩],
    targets := [], evolvedEdges := [], strategyLessons := [], companyLessons := [] }

/-- Claim C9 counterexample: with a lesson stored and no prior strategy, the
refine path reports `evolved_from = 0` (non-null) although no strategy
version 0 exists, and no EVOLVED_FROM edge is created. -/
theorem c9_evolved_from_cex :
    (runStrategyGeneration c9Db "p" "mr" ⟨"i", [], []⟩).evolved_from = some 0 ∧
    c9Db.strategies = [] ∧
    (runStrategyGeneration c9Db "p" "mr" ⟨"i", [], []⟩).db.evolvedEdges = [] := by decide

theorem c9_witness :
    (runStrategyGeneration wDbLessons "p" "mr" ⟨"i", [], []⟩).db.evolvedEdges =
      wDbLessons.evolvedEdges ++ [(getLatestStrategyVersion wDbLessons + 1, 1)] ∧
    (∃! s, s ∈ wDbLessons.strategies ∧ s.version = 1) := by
  have h := (c9_evolved_from_amended wDbLessons "p" "mr" ⟨"i", [], []⟩ (by decide)).1 1
    (by decide) ⟨wStrategy, by decide, rfl⟩
  exact ⟨h.1, h.2⟩

/-! ### `agent/pivot.py` -/

/-- The per-lead competitor test of `_get_affected_leads`: exact membership in
the lowercased stack, or substring of one of its entries. -/
def leadMatches (competitorLower : String) (lead : Company) : Bool :=
  (lead.tech_stack.map strLower).contains competitorLower ||
    (lead.tech_stack.map strLower).any (fun t => strContains t competitorLower)

/-- The companies targeted by the current strategy (the Cypher `TARGETS`
pattern of `_get_affected_leads`). -/
def currentStrategyLeads (db : Db) : List Company :=
  match currentStrategy db with
  | none => []
  | some s => db.companies.filter (fun c => db.targets.contains (s.version, c.domain))

/-- `_get_affected_leads`: tech-stack matches, falling back to all current
leads when no lead matches, and `[]` when the strategy targets no lead. -/
def getAffectedLeads (db : Db) (competitor : String) : List Company :=
  if (currentStrategyLeads db).isEmpty then []
  else if ((currentStrategyLeads db).filter (leadMatches (strLower competitor))).isEmpty then
    currentStrategyLeads db
  else (currentStrategyLeads db).filter (leadMatches (strLower competitor))

/-- `_log_pivot_event`: a `TriggerPivot` lesson on the current strategy. -/
def logPivotEvent (db : Db) (lesson_id status competitor : String)
    (emailsDrafted : Nat) (now : Nat) : Db :=
  match currentStrategy db with
  | none => db
  | some s =>
    { db with
      lessons := db.lessons ++
        [{ lesson_id := lesson_id, type := "TriggerPivot"
           details := "Scout detected " ++ status ++ " for " ++ competitor ++
             ". Drafted " ++ toString emailsDrafted ++ " outreach email(s)."
           timestamp := now }]
      strategyLessons := db.strategyLessons ++ [(s.version, lesson_id)] }

/-- The result fields of `run_pivot_drafting` the claims reach. -/
structure PivotOutcome where
  db : Db
  strategy_version : Option Nat
  affected_leads : Nat
  errorNoStrategy : Bool
deriving Repr, DecidableEq

/-- `run_pivot_drafting`: resolve the current strategy (error if none), find
affected leads, draft one email per affected lead (the drafting provider is
external and its output does not influence control flow), then log the pivot
lesson — unless no lead was affected. -/
def runPivotDrafting (db : Db) (status competitor lesson_id : String) (now : Nat) :
    PivotOutcome :=
  match currentStrategy db with
  | none => { db := db, strategy_version := none, affected_leads := 0, errorNoStrategy := true }
  | some s =>
    if (getAffectedLeads db competitor).isEmpty then
      { db := db, strategy_version := some s.version, affected_leads := 0,
        errorNoStrategy := false }
    else
      { db := logPivotEvent db lesson_id status competitor
          (getAffectedLeads db competitor).length now
        strategy_version := some s.version
        affected_leads := (getAffectedLeads db competitor).length
        errorNoStrategy := false }

theorem leadMatches_iff (competitor : String) (lead : Company) :
    leadMatches (strLower competitor) lead = true ↔
      ∃ t ∈ lead.tech_stack, strContains (strLower t) (strLower competitor) = true := by
  unfold leadMatches
  rw [Bool.or_eq_true]
  constructor
  · rintro (hc | ha)
    · rcases List.mem_map.mp (List.elem_iff.mp hc) with ⟨t, ht, hteq⟩
      exact ⟨t, ht, by rw [hteq]; exact strContains_self _⟩
    · rcases List.any_eq_true.mp ha with ⟨u, hu, hcc⟩
      rcases List.mem_map.mp hu with ⟨t, ht, rfl⟩
      exact ⟨t, ht, hcc⟩
  · rintro ⟨t, ht, hcc⟩
    exact Or.inr (List.any_eq_true.mpr ⟨strLower t, List.mem_map_of_mem _ ht, hcc⟩)

theorem getAffectedLeads_ne_nil {db : Db} {competitor : String}
    (h : currentStrategyLeads db ≠ []) : getAffectedLeads db competitor ≠ [] := by
  unfold getAffectedLeads
  rw [if_neg (by simp [List.isEmpty_iff, h])]
  split_ifs with hf
  · exact h
  · rw [List.isEmpty_iff] at hf
    exact hf

/-- Claim C6: a lead is affected exactly when its tech stack contains the competitor
token as a case-insensitive substring; an empty match set falls back to all
current leads; `affected_leads = 0` happens only with zero targeted leads, and
then no TriggerPivot lesson is written. -/
theorem c6_affected_leads (db : Db) (status competitor lesson_id : String) (now : Nat)
    (s : Strategy) (hs : currentStrategy db = some s) :
    (∀ lead, leadMatches (strLower competitor) lead = true ↔
      ∃ t ∈ lead.tech_stack, strContains (strLower t) (strLower competitor) = true)
    ∧ ((currentStrategyLeads db).filter (leadMatches (strLower competitor)) ≠ [] →
        getAffectedLeads db competitor =
          (currentStrategyLeads db).filter (leadMatches (strLower competitor)))
    ∧ (currentStrategyLeads db ≠ [] →
        (currentStrategyLeads db).filter (leadMatches (strLower competitor)) = [] →
        getAffectedLeads db competitor = currentStrategyLeads db)
    ∧ (currentStrategyLeads db ≠ [] →
        (runPivotDrafting db status competitor lesson_id now).affected_leads =
          (getAffectedLeads db competitor).length ∧
        (getAffectedLeads db competitor).length ≠ 0 ∧
        (runPivotDrafting db status competitor lesson_id now).db.lessons =
          db.lessons ++ [⟨lesson_id, "TriggerPivot",
            "Scout detected " ++ status ++ " for " ++ competitor ++ ". Drafted " ++
              toString (getAffectedLeads db competitor).length ++
              " outreach email(s).", now⟩] ∧
        (runPivotDrafting db status competitor lesson_id now).db.strategyLessons =
          db.strategyLessons ++ [(s.version, lesson_id)])
    ∧ (currentStrategyLeads db = [] →
        (runPivotDrafting db status competitor lesson_id now).affected_leads = 0 ∧
        (runPivotDrafting db status competitor lesson_id now).db = db) := by
  refine ⟨fun lead => leadMatches_iff competitor lead, ?_, ?_, ?_, ?_⟩
  · intro hf
    have hld : currentStrategyLeads db ≠ [] := by
      intro h0
      exact hf (by rw [h0]; rfl)
    unfold getAffectedLeads
    rw [if_neg (by simp [List.isEmpty_iff, hld]),
      if_neg (by simp [List.isEmpty_iff, hf])]
  · intro hld hf
    unfold getAffectedLeads
    rw [if_neg (by simp [List.isEmpty_iff, hld]),
      if_pos (by simp [List.isEmpty_iff, hf])]
  · intro hld
    have haff : getAffectedLeads db competitor ≠ [] := getAffectedLeads_ne_nil hld
    have hlen : (getAffectedLeads db competitor).length ≠ 0 := by
      intro h0
      exact haff (List.length_eq_zero.mp h0)
    unfold runPivotDrafting
    rw [hs]
    dsimp only
    rw [if_neg (by simp [List.isEmpty_iff, haff])]
    exact ⟨rfl, hlen, by simp only [logPivotEvent, hs], by simp only [logPivotEvent, hs]⟩
  · intro hld
    have haff : getAffectedLeads db competitor = [] := by
      unfold getAffectedLeads
      rw [if_pos (by simp [List.isEmpty_iff, hld])]
    unfold runPivotDrafting
    rw [hs]
    dsimp only
    rw [if_pos (by simp [List.isEmpty_iff, haff])]
    exact ⟨rfl, rfl⟩

/-- Five targeted leads, none of which mentions DigitalOcean. -/
def c6Company (nm dom : String) : Company :=
  { name := nm, domain := dom, tech_stack := ["Postgres", "AWS"], classification := none }

def c6Db : Db :=
  { strategies := [wStrategy]
    companies := [c6Company "A" "a.com", c6Company "B" "b.com", c6Company "C" "c.com",
      c6Company "D" "d.com", c6Company "E" "e.com"]
    lessons := []
    targets := [(1, "a.com"), (1, "b.com"), (1, "c.com"), (1, "d.com"), (1, "e.com")]
    evolvedEdges := [], strategyLessons := [], companyLessons := [] }

theorem c6_witness :
    (runPivotDrafting c6Db "critical_outage" "DigitalOcean" "les-2" 7).affected_leads = 5 ∧
    (runPivotDrafting c6Db "critical_outage" "DigitalOcean" "les-2" 7).db.strategyLessons =
      c6Db.strategyLessons ++ [(1, "les-2")] := by
  have h := c6_affected_leads c6Db "critical_outage" "DigitalOcean" "les-2" 7 wStrategy
    (by decide)
  have hd := h.2.2.2.1 (by decide)
  exact ⟨by rw [hd.1]; decide, hd.2.2.2⟩

/-! ### `_update_lead_classification` (`agent/validation.py` lines 47-54) -/

/-- The Cypher `MATCH (c:Company {domain: $domain}) SET c.classification`:
every matching node is overwritten; a missing domain simply matches no row. -/
def updateLeadClassification (companies : List Company) (domain classification : String) :
    List Company :=
  companies.map (fun c =>
    if c.domain == domain then { c with classification := some classification } else c)

/-- The spec's §4.3 contract for the same operation, for comparison: an
idempotent overwrite keyed by domain that fails with `UnknownLeadError` when
the domain is absent. -/
def updateClassificationSpec (companies : List Company) (domain classification : String) :
    Except String (List Company) :=
  if companies.any (fun c => c.domain == domain) then
    Except.ok (updateLeadClassification companies domain classification)
  else Except.error "UnknownLeadError"

/-- Claim C8 counterexample: updating the classification for a domain with no
lead silently leaves the store unchanged; the code has no failure path, where
the spec demands an `UnknownLeadError`. -/
theorem c8_unknown_domain_cex :
    updateLeadClassification [] "acme.com" "Strike" = [] ∧
    updateClassificationSpec [] "acme.com" "Strike" =
      Except.error "UnknownLeadError" := ⟨rfl, rfl⟩

/-- Claim C8 (amended): the classification update is an idempotent overwrite keyed
by domain — a second write replaces the first, non-matching leads are
untouched — but an absent domain silently leaves the store unchanged instead
of failing with `UnknownLeadError`. -/
theorem c8_overwrite_amended (companies : List Company) (domain l1 l2 : String) :
    updateLeadClassification (updateLeadClassification companies domain l1) domain l2 =
      updateLeadClassification companies domain l2
    ∧ (∀ c ∈ updateLeadClassification companies domain l1,
        (c.domain = domain → c.classification = some l1))
    ∧ (∀ c ∈ companies, c.domain ≠ domain →
        c ∈ updateLeadClassification companies domain l1)
    ∧ ((∀ c ∈ companies, c.domain ≠ domain) →
        updateLeadClassification companies domain l1 = companies) := by
  refine ⟨?_, ?_, ?_, ?_⟩
  · unfold updateLeadClassification
    rw [List.map_map]
    apply List.map_congr_left
    intro c _
    by_cases hc : (c.domain == domain) = true
    · simp [Function.comp, hc]
    · simp [Function.comp, hc]
  · intro c hc hdom
    rcases List.mem_map.mp hc with ⟨d, hd, hdeq⟩
    by_cases hdd : d.domain == domain
    · rw [if_pos hdd] at hdeq
      rw [← hdeq]
    · rw [if_neg hdd] at hdeq
      subst hdeq
      exact absurd hdom (by simpa using hdd)
  · intro c hc hdom
    have : (if c.domain == domain then { c with classification := some l1 } else c) = c := by
      rw [if_neg (by simpa using hdom)]
    rw [← this]
    exact List.mem_map_of_mem _ hc
  · intro hall
    unfold updateLeadClassification
    have hmap : companies.map (fun c =>
        if c.domain == domain then { c with classification := some l1 } else c) =
        companies.map id := by
      apply List.map_congr_left
      intro c hc
      rw [if_neg (by simpa using hall c hc)]
      rfl
    rw [hmap, List.map_id]

def c8Lead : Company :=
  { name := "GitLab", domain := "gitlab.com", tech_stack := [], classification := none }

theorem c8_witness :
    updateLeadClassification (updateLeadClassification [c8Lead] "gitlab.com" "Strike")
      "gitlab.com" "Monitor" =
      updateLeadClassification [c8Lead] "gitlab.com" "Monitor" ∧
    updateLeadClassification [c8Lead] "other.com" "Strike" = [c8Lead] := by
  have h := c8_overwrite_amended [c8Lead] "gitlab.com" "Strike" "Monitor"
  have h2 := (c8_overwrite_amended [c8Lead] "other.com" "Strike" "x").2.2.2 (by decide)
  exact ⟨h.1, h2⟩

end Recurve
